import Mathlib

/-!
Verification of the dB-Meter-pro core pipeline: loudness estimation,
display smoothing, the sustained-noise event detector, and the bounded
trend buffers, as implemented in `src/App.tsx` (the `update` tick loop)
and the dB-band label tables.
-/

namespace DbMeter

/-- Loudness-category label table of `getDbLabel` in `src/App.tsx`
(lines 24-34): fixed breakpoints every 10 dB from 30 to 100. -/
def getDbLabel (db : ℕ) : String :=
  if db < 30 then "Whisper Quiet"
  else if db < 40 then "Quiet Library"
  else if db < 50 then "Quiet Room"
  else if db < 60 then "Normal Conversation"
  else if db < 70 then "Busy Office"
  else if db < 80 then "Loud Café"
  else if db < 90 then "Vacuum / Traffic"
  else if db < 100 then "Sound System"
  else "Potential Damage!"

/-- Loudness-category label table of `getDbLabel` in the App variant
bundled alongside `main.js`: identical breakpoints, but the top band
reads "Potential Hearing Damage!". -/
def getDbLabelMain (db : ℕ) : String :=
  if db < 30 then "Whisper Quiet"
  else if db < 40 then "Quiet Library"
  else if db < 50 then "Quiet Room"
  else if db < 60 then "Normal Conversation"
  else if db < 70 then "Busy Office"
  else if db < 80 then "Loud Café"
  else if db < 90 then "Vacuum / Traffic"
  else if db < 100 then "Sound System"
  else "Potential Hearing Damage!"

/-! ## Loudness estimator (`update`, lines 230-240)

`sum += dataArray[i] * dataArray[i]`, `rms = sqrt(sum / bufferLength)`,
`baseDb = rms > 0.000001 ? 20 * log10(rms) + 80 : 0`,
`currentDb = round(max(0, baseDb + calibration))`. -/

/-- Root mean square of a sample buffer: square root of the mean of the
squared samples. -/
noncomputable def rmsOf (buf : List ℝ) : ℝ :=
  Real.sqrt ((buf.map fun x => x * x).sum / buf.length)

/-- Base dB value: `20 * log10(rms) + 80` when the RMS exceeds `1e-6`,
else `0`. -/
noncomputable def baseDb (buf : List ℝ) : ℝ :=
  if 1 / 1000000 < rmsOf buf then 20 * Real.logb 10 (rmsOf buf) + 80 else 0

/-- Final integer reading: `round(max(0, baseDb + calibrationOffset))`. -/
noncomputable def currentDbOf (buf : List ℝ) (calib : ℤ) : ℤ :=
  round (max 0 (baseDb buf + (calib : ℝ)))

/-! ## Smoother (`update`, lines 242-250, and the coefficient tables at
lines 169-172) -/

/-- Smoothing-speed preset. -/
inductive Speed where
  | slow
  | medium
  | fast
deriving DecidableEq

/-- EMA coefficient table: `{ slow: 0.1, medium: 0.25, fast: 0.6 }`. -/
def alphaOf : Speed → ℚ
  | .slow => 0.1
  | .medium => 0.25
  | .fast => 0.6

/-- Display refresh interval table:
`{ slow: 1000, medium: 700, fast: 400 }` (milliseconds). -/
def intervalOf : Speed → ℤ
  | .slow => 1000
  | .medium => 700
  | .fast => 400

/-- Smoother state: the EMA value and the time of the last pushed
display update. -/
structure SmoothState where
  smoothedDb : ℚ
  lastDisplayUpdateMs : ℤ
deriving DecidableEq

/-- One smoother tick: unconditionally fold `currentDb` into the EMA;
push the display value (second component) only when
`now - lastDisplayUpdateMs > refreshInterval`, updating the timestamp. -/
def smootherTick (sp : Speed) (s : SmoothState) (now : ℤ) (currentDb : ℕ) :
    SmoothState × Option ℚ :=
  if intervalOf sp < now - s.lastDisplayUpdateMs then
    (⟨alphaOf sp * currentDb + (1 - alphaOf sp) * s.smoothedDb, now⟩,
      some (alphaOf sp * currentDb + (1 - alphaOf sp) * s.smoothedDb))
  else
    (⟨alphaOf sp * currentDb + (1 - alphaOf sp) * s.smoothedDb,
      s.lastDisplayUpdateMs⟩, none)

/-! ## Event detector (`update`, lines 265-309) -/

/-- Fixed detector parameters: the notification threshold (dB) and the
required sustained duration (seconds). -/
structure Cfg where
  threshold : ℕ
  durLimit : ℚ
deriving DecidableEq

/-- Logged sound event: fire time (ms), captured peak, and its dB-band
label. -/
structure SoundEvent where
  time : ℤ
  db : ℕ
  label : String
deriving DecidableEq

/-- Emitted notification: fire time (ms), title and body. -/
structure Notif where
  time : ℤ
  title : String
  body : String
deriving DecidableEq

/-- Detector state: the refs of `App` (`loudStartTimeRef`,
`eventPeakRef`, `isEventOccurring`, `isAlerting`, `lastNotifyTime`),
the scheduled `setTimeout` fire times, the bounded event log and the
notifications emitted so far (newest first). -/
structure DetState where
  loudStart : Option ℤ
  eventPeak : ℕ
  isEventOccurring : Bool
  alerting : Bool
  lastNotify : ℤ
  pending : List ℤ
  events : List SoundEvent
  notifs : List Notif
deriving DecidableEq

/-- Initial detector state: no episode, zero peak, `lastNotifyTime = 0`,
nothing scheduled, empty logs. -/
def detInit : DetState :=
  ⟨none, 0, false, false, 0, [], [], []⟩

/-- Notification body template:
`Level reached ${peak} dB for ${durLimit}+ sec.`. -/
def mkBody (peak : ℕ) (dur : ℚ) : String :=
  "Level reached " ++ toString peak ++ " dB for " ++ toString dur ++ "+ sec."

/-- One detector tick at wall time `now` with reading `db`.
Above threshold: set alerting, start the sustain timer if unset, fold
the reading into `eventPeak`, and when not mid-episode, the contiguous
duration reaches `durLimit` and the 7000 ms cooldown since the last
notification has elapsed, mark the episode and schedule an emission
1000 ms later. At or below threshold: clear the sustain timer and
alerting only. -/
def dtick (cfg : Cfg) (s : DetState) (now : ℤ) (db : ℕ) : DetState :=
  if cfg.threshold < db then
    if s.isEventOccurring = false
        ∧ cfg.durLimit ≤ ((now - s.loudStart.getD now : ℤ) : ℚ) / 1000
        ∧ 7000 < now - s.lastNotify then
      { s with alerting := true,
               loudStart := some (s.loudStart.getD now),
               eventPeak := max s.eventPeak db,
               isEventOccurring := true,
               pending := s.pending ++ [now + 1000] }
    else
      { s with alerting := true,
               loudStart := some (s.loudStart.getD now),
               eventPeak := max s.eventPeak db }
  else
    { s with alerting := false, loudStart := none }

/-- Fire the oldest scheduled emission, if any: read `eventPeak` at this
moment, emit the notification, front-insert the logged event truncating
the log at 50, set `lastNotify` to the fire time, and reset
`isEventOccurring` and `eventPeak`. -/
def dfire (cfg : Cfg) (s : DetState) : DetState :=
  match s.pending with
  | [] => s
  | t :: rest =>
    { s with
      pending := rest,
      notifs := ⟨t, "Sustained Noise Detected!",
        mkBody s.eventPeak cfg.durLimit⟩ :: s.notifs,
      events := (⟨t, s.eventPeak, getDbLabel s.eventPeak⟩ :: s.events).take 50,
      lastNotify := t,
      isEventOccurring := false,
      eventPeak := 0 }

/-- One step of an execution: either a detector tick or the firing of a
scheduled emission timer. -/
inductive Step where
  | tick (now : ℤ) (db : ℕ)
  | fire
deriving DecidableEq

/-- Apply one step to the detector state. -/
def dstep (cfg : Cfg) (s : DetState) : Step → DetState
  | .tick now db => dtick cfg s now db
  | .fire => dfire cfg s

/-- Run the detector over a sequence of steps. -/
def run (cfg : Cfg) (s : DetState) (l : List Step) : DetState :=
  l.foldl (dstep cfg) s

/-- Times and readings of the tick steps of a trace, in order. -/
def ticksOf : List Step → List (ℤ × ℕ)
  | [] => []
  | .tick now db :: l => (now, db) :: ticksOf l
  | .fire :: l => ticksOf l

/-- Times of the tick steps of a trace, in order. -/
def tickTimes (l : List Step) : List ℤ :=
  (ticksOf l).map Prod.fst

/-- Reachable-state invariant of the detector: at most one scheduled
emission, scheduled exactly while mid-episode and strictly more than
7000 ms after the last notification; logged notifications and events
are newest-first, no two closer than 7000 ms, all at or before
`lastNotify`; the event log holds at most 50 entries. -/
structure DetInv (s : DetState) : Prop where
  pendLen : s.pending.length ≤ 1
  pendIff : s.isEventOccurring = false ↔ s.pending = []
  pendSep : ∀ t ∈ s.pending, s.lastNotify + 7000 < t
  notifLe : ∀ n ∈ s.notifs, n.time ≤ s.lastNotify
  notifSep : s.notifs.Pairwise fun a b => b.time + 7000 < a.time
  evLe : ∀ e ∈ s.events, e.time ≤ s.lastNotify
  evSep : s.events.Pairwise fun a b => b.time + 7000 < a.time
  evLen : s.events.length ≤ 50

/-! ## Trend buffers (`App`, lines 92, 185-197, 260-263) -/

/-- Initial live history buffer: 100 zeros. -/
def historyInit : List ℕ :=
  List.replicate 100 0

/-- Live history update: `[...prev.slice(1), currentDb]`. -/
def historyStep (h : List ℕ) (db : ℕ) : List ℕ :=
  h.drop 1 ++ [db]

/-- Session aggregator update: `[...prev, peak].slice(-480)`. -/
def sessionStep (sess : List ℕ) (peakv : ℕ) : List ℕ :=
  (sess ++ [peakv]).drop ((sess ++ [peakv]).length - 480)

/-! ## Helper lemmas -/

theorem dfire_loudStart (cfg : Cfg) (s : DetState) :
    (dfire cfg s).loudStart = s.loudStart := by
  rcases hp : s.pending with _ | ⟨t, rest⟩ <;> simp [dfire, hp]

theorem dtick_loudStart_above (cfg : Cfg) (s : DetState) (now : ℤ) (db : ℕ)
    (h : cfg.threshold < db) :
    (dtick cfg s now db).loudStart = some (s.loudStart.getD now) := by
  unfold dtick
  rw [if_pos h]
  split_ifs <;> rfl

theorem ticksOf_append (l₁ l₂ : List Step) :
    ticksOf (l₁ ++ l₂) = ticksOf l₁ ++ ticksOf l₂ := by
  induction l₁ with
  | nil => rfl
  | cons a l ih => cases a <;> simp [ticksOf, ih]

theorem tickTimes_append (l₁ l₂ : List Step) :
    tickTimes (l₁ ++ l₂) = tickTimes l₁ ++ tickTimes l₂ := by
  simp [tickTimes, ticksOf_append]

theorem detInv_init : DetInv detInit := by
  refine ⟨?_, ?_, ?_, ?_, ?_, ?_, ?_, ?_⟩ <;> simp [detInit]

theorem detInv_tick (cfg : Cfg) (s : DetState) (now : ℤ) (db : ℕ)
    (h : DetInv s) : DetInv (dtick cfg s now db) := by
  unfold dtick
  split_ifs with h1 h2
  · obtain ⟨ha, hb, hc⟩ := h2
    have hpend : s.pending = [] := h.pendIff.mp ha
    refine ⟨?_, ?_, ?_, h.notifLe, h.notifSep, h.evLe, h.evSep, h.evLen⟩
    · simp [hpend]
    · simp [hpend]
    · intro u hu
      rw [hpend] at hu
      simp at hu
      dsimp only
      omega
  · exact ⟨h.pendLen, h.pendIff, h.pendSep, h.notifLe, h.notifSep,
      h.evLe, h.evSep, h.evLen⟩
  · exact ⟨h.pendLen, h.pendIff, h.pendSep, h.notifLe, h.notifSep,
      h.evLe, h.evSep, h.evLen⟩

theorem detInv_fire (cfg : Cfg) (s : DetState) (h : DetInv s) :
    DetInv (dfire cfg s) := by
  rcases hp : s.pending with _ | ⟨t, rest⟩
  · have hred : dfire cfg s = s := by simp [dfire, hp]
    rw [hred]
    exact h
  · have hrest : rest = [] := by
      rcases rest with _ | ⟨x, xs⟩
      · rfl
      · exfalso
        have hlen := h.pendLen
        rw [hp] at hlen
        simp [List.length_cons] at hlen
    have hsep : s.lastNotify + 7000 < t :=
      h.pendSep t (by rw [hp]; exact List.mem_cons_self _ _)
    have hred : dfire cfg s =
        { s with
          pending := rest,
          notifs := ⟨t, "Sustained Noise Detected!",
            mkBody s.eventPeak cfg.durLimit⟩ :: s.notifs,
          events := (⟨t, s.eventPeak, getDbLabel s.eventPeak⟩ ::
            s.events).take 50,
          lastNotify := t,
          isEventOccurring := false,
          eventPeak := 0 } := by
      simp [dfire, hp]
    rw [hred]
    refine ⟨?_, ?_, ?_, ?_, ?_, ?_, ?_, ?_⟩
    · simp [hrest]
    · simp [hrest]
    · intro u hu
      rw [hrest] at hu
      simp at hu
    · intro n hn
      rcases List.mem_cons.mp hn with rfl | hn'
      · exact le_refl t
      · have := h.notifLe n hn'
        dsimp only
        omega
    · exact List.Pairwise.cons
        (fun b hb => by have := h.notifLe b hb; dsimp only; omega) h.notifSep
    · intro e he
      have he' := List.take_subset _ _ he
      rcases List.mem_cons.mp he' with rfl | he''
      · exact le_refl t
      · have := h.evLe e he''
        dsimp only
        omega
    · exact ((List.Pairwise.cons
        (fun b hb => by have := h.evLe b hb; dsimp only; omega) h.evSep).sublist
          (List.take_sublist _ _))
    · simp [List.length_take]

theorem detInv_run (cfg : Cfg) (l : List Step) : DetInv (run cfg detInit l) := by
  suffices H : ∀ s, DetInv s → DetInv (run cfg s l) from H detInit detInv_init
  induction l with
  | nil => exact fun s hs => hs
  | cons a l ih =>
    intro s hs
    show DetInv (run cfg (dstep cfg s a) l)
    refine ih _ ?_
    cases a with
    | tick now db => exact detInv_tick cfg s now db hs
    | fire => exact detInv_fire cfg s hs

theorem loudStart_spec (cfg : Cfg) (l : List Step)
    (hwf : (tickTimes l).Pairwise (· < ·)) :
    ∀ t : ℤ, (run cfg detInit l).loudStart = some t →
      (∃ d, (t, d) ∈ ticksOf l ∧ cfg.threshold < d)
      ∧ ∀ p ∈ ticksOf l, t ≤ p.1 → cfg.threshold < p.2 := by
  induction l using List.reverseRecOn with
  | nil => intro t ht; simp [run, detInit] at ht
  | append_singleton l a ih =>
    have hrun : run cfg detInit (l ++ [a]) = dstep cfg (run cfg detInit l) a := by
      simp [run, List.foldl_append]
    have hticks : ticksOf (l ++ [a]) = ticksOf l ++ ticksOf [a] :=
      ticksOf_append l [a]
    have hwf' : (tickTimes l).Pairwise (· < ·) := by
      rw [tickTimes_append] at hwf
      exact (List.pairwise_append.mp hwf).1
    cases a with
    | fire =>
      intro t ht
      rw [hrun] at ht
      rw [show dstep cfg (run cfg detInit l) Step.fire
          = dfire cfg (run cfg detInit l) from rfl, dfire_loudStart] at ht
      obtain ⟨hex, hall⟩ := ih hwf' t ht
      refine ⟨?_, ?_⟩
      · obtain ⟨d, hd, hda⟩ := hex
        exact ⟨d, by rw [hticks]; exact List.mem_append_left _ hd, hda⟩
      · intro p hp hle
        rw [hticks] at hp
        rcases List.mem_append.mp hp with h' | h'
        · exact hall p h' hle
        · simp [ticksOf] at h'
    | tick now db =>
      have hlt : ∀ x ∈ tickTimes l, x < now := by
        rw [tickTimes_append] at hwf
        intro x hx
        exact (List.pairwise_append.mp hwf).2.2 x hx now
          (by simp [tickTimes, ticksOf])
      by_cases hab : cfg.threshold < db
      · intro t ht
        rw [hrun, show dstep cfg (run cfg detInit l) (Step.tick now db)
            = dtick cfg (run cfg detInit l) now db from rfl,
          dtick_loudStart_above _ _ _ _ hab] at ht
        have ht' : ((run cfg detInit l).loudStart).getD now = t := by
          simpa using ht
        rcases hls : (run cfg detInit l).loudStart with _ | t0
        · rw [hls] at ht'
          simp at ht'
          subst ht'
          refine ⟨⟨db, ?_, hab⟩, ?_⟩
          · rw [hticks]
            exact List.mem_append_right _ (by simp [ticksOf])
          · intro p hp hle
            rw [hticks] at hp
            rcases List.mem_append.mp hp with h' | h'
            · exfalso
              have hmem : p.1 ∈ tickTimes l := List.mem_map_of_mem Prod.fst h'
              have := hlt p.1 hmem
              omega
            · simp [ticksOf] at h'
              rw [Prod.ext_iff] at h'
              rw [h'.2]
              exact hab
        · rw [hls] at ht'
          simp at ht'
          subst ht'
          obtain ⟨hex, hall⟩ := ih hwf' t0 hls
          refine ⟨?_, ?_⟩
          · obtain ⟨d, hd, hda⟩ := hex
            exact ⟨d, by rw [hticks]; exact List.mem_append_left _ hd, hda⟩
          · intro p hp hle
            rw [hticks] at hp
            rcases List.mem_append.mp hp with h' | h'
            · exact hall p h' hle
            · simp [ticksOf] at h'
              rw [Prod.ext_iff] at h'
              rw [h'.2]
              exact hab
      · intro t ht
        rw [hrun, show dstep cfg (run cfg detInit l) (Step.tick now db)
            = dtick cfg (run cfg detInit l) now db from rfl] at ht
        have hnone : (dtick cfg (run cfg detInit l) now db).loudStart = none := by
          unfold dtick
          rw [if_neg hab]
        rw [hnone] at ht
        exact absurd ht (by simp)

theorem history_length_le (dbs : List ℕ) :
    ∀ h : List ℕ, h.length ≤ 100 → (dbs.foldl historyStep h).length ≤ 100 := by
  induction dbs with
  | nil => exact fun h hh => hh
  | cons d dbs ih =>
    intro h hh
    refine ih _ ?_
    simp [historyStep]
    omega

theorem session_length_le (peaks : List ℕ) :
    ∀ s : List ℕ, s.length ≤ 480 → (peaks.foldl sessionStep s).length ≤ 480 := by
  induction peaks with
  | nil => exact fun s hs => hs
  | cons p peaks ih =>
    intro s hs
    rw [List.foldl_cons]
    refine ih _ ?_
    simp [sessionStep]
    omega

theorem session_suffix (peaks : List ℕ) :
    ∀ s : List ℕ, (peaks.foldl sessionStep s) <:+ s ++ peaks := by
  induction peaks with
  | nil => intro s; simp
  | cons p peaks ih =>
    intro s
    have h1 : (peaks.foldl sessionStep (sessionStep s p))
        <:+ (sessionStep s p) ++ peaks := ih _
    have h2 : sessionStep s p <:+ s ++ [p] := by
      unfold sessionStep
      exact List.drop_suffix _ _
    obtain ⟨pre, hpre⟩ := h2
    have h3 : (sessionStep s p) ++ peaks <:+ s ++ (p :: peaks) := by
      refine ⟨pre, ?_⟩
      rw [← List.append_assoc, hpre]
      simp
    rw [List.foldl_cons]
    exact h1.trans h3

/-! ## Claim theorems -/

/-- C4: for every sample buffer, `rmsOf` is the root of the mean squared
sample, `baseDb` is `20 * log10(rms) + 80` exactly when the RMS exceeds
`1e-6` and `0` otherwise, the reading is the rounded clamp
`round(max(0, baseDb + calibrationOffset))`, and that reading is a
non-negative integer. -/
theorem loudness_nonneg (buf : List ℝ) (calib : ℤ) :
    0 ≤ currentDbOf buf calib
    ∧ currentDbOf buf calib = round (max 0 (baseDb buf + (calib : ℝ)))
    ∧ baseDb buf = (if 1 / 1000000 < rmsOf buf
        then 20 * Real.logb 10 (rmsOf buf) + 80 else 0)
    ∧ rmsOf buf = Real.sqrt ((buf.map fun x => x * x).sum / buf.length) := by
  refine ⟨?_, rfl, rfl, rfl⟩
  unfold currentDbOf
  rw [round_eq]
  refine Int.floor_nonneg.mpr ?_
  have h : (0:ℝ) ≤ max 0 (baseDb buf + (calib : ℝ)) := le_max_left _ _
  linarith

theorem rmsOf_replicate_zero (n : ℕ) : rmsOf (List.replicate n (0:ℝ)) = 0 := by
  unfold rmsOf
  simp

theorem baseDb_replicate_zero (n : ℕ) :
    baseDb (List.replicate n (0:ℝ)) = 0 := by
  unfold baseDb
  rw [rmsOf_replicate_zero]
  norm_num

/-- C5 counterexample: a 512-sample all-zero buffer with calibration
offset `+1` (inside `[-30, 30]`) yields a reading of `1`, not `0`. -/
theorem silence_calibration_cx :
    currentDbOf (List.replicate 512 (0:ℝ)) 1 ≠ 0 := by
  unfold currentDbOf
  rw [baseDb_replicate_zero]
  have h1 : max (0:ℝ) (0 + ((1:ℤ):ℝ)) = 1 := by norm_num
  rw [h1, round_one]
  decide

/-- C5 (amended): for every all-zero sample buffer the reading equals
`max 0 calibrationOffset` — `0` for every non-positive offset, but equal
to the offset itself when the offset is positive. -/
theorem silence_reading (n : ℕ) (calib : ℤ) :
    currentDbOf (List.replicate n (0:ℝ)) calib = max 0 calib := by
  unfold currentDbOf
  rw [baseDb_replicate_zero, zero_add]
  have h1 : max (0:ℝ) ((calib : ℤ) : ℝ) = ((max 0 calib : ℤ) : ℝ) := by
    rw [Int.cast_max]
    norm_num
  rw [h1, round_intCast]

/-- C6: on every tick the EMA `smoothedDb = alpha * currentDb +
(1 - alpha) * smoothedDb` is applied regardless of display throttling;
the display value is pushed exactly when
`now - lastDisplayUpdateMs > refreshInterval` (and then the timestamp is
set to `now`); and the `(alpha, interval)` tables are
slow = (0.1, 1000), medium = (0.25, 700), fast = (0.6, 400). -/
theorem smoother_ema (sp : Speed) (s : SmoothState) (now : ℤ) (db : ℕ) :
    (smootherTick sp s now db).1.smoothedDb
        = alphaOf sp * db + (1 - alphaOf sp) * s.smoothedDb
    ∧ (smootherTick sp s now db).2
        = (if intervalOf sp < now - s.lastDisplayUpdateMs
            then some ((smootherTick sp s now db).1.smoothedDb) else none)
    ∧ (smootherTick sp s now db).1.lastDisplayUpdateMs
        = (if intervalOf sp < now - s.lastDisplayUpdateMs
            then now else s.lastDisplayUpdateMs)
    ∧ alphaOf Speed.slow = 0.1 ∧ alphaOf Speed.medium = 0.25
    ∧ alphaOf Speed.fast = 0.6 ∧ intervalOf Speed.slow = 1000
    ∧ intervalOf Speed.medium = 700 ∧ intervalOf Speed.fast = 400 := by
  refine ⟨?_, ?_, ?_, rfl, rfl, rfl, rfl, rfl, rfl⟩ <;>
    by_cases h : intervalOf sp < now - s.lastDisplayUpdateMs <;>
      simp [smootherTick, h]

/-- C9 counterexample: `getDbLabel` labels the value `90` as
"Sound System", not "Vacuum / Traffic" (that band is `[80, 90)`), and
labels `100` as "Potential Damage!", not "Potential Hearing Damage!". -/
theorem db_label_cx :
    getDbLabel 90 = "Sound System"
    ∧ getDbLabel 90 ≠ "Vacuum / Traffic"
    ∧ getDbLabel 100 = "Potential Damage!"
    ∧ getDbLabel 100 ≠ "Potential Hearing Damage!" :=
  ⟨by decide, by decide, by decide, by decide⟩

/-- C9 (amended): labels follow the fixed breakpoints — below 30 is
"Whisper Quiet", `[80, 90)` is "Vacuum / Traffic" while `90` itself is
"Sound System", and at or above 100 `getDbLabel` of `src/App.tsx` says
"Potential Damage!" whereas the variant bundled with `main.js` says
"Potential Hearing Damage!"; an emitted event's captured peak is
labelled with `getDbLabel`. -/
theorem db_label_bands (db1 db2 db3 : ℕ) (cfg : Cfg) (s : DetState) (t : ℤ)
    (r : List ℤ) (h1 : db1 < 30) (h2 : 100 ≤ db2) (h3a : 80 ≤ db3)
    (h3b : db3 < 90) (hp : s.pending = t :: r) :
    getDbLabel db1 = "Whisper Quiet"
    ∧ getDbLabel db3 = "Vacuum / Traffic"
    ∧ getDbLabel 90 = "Sound System"
    ∧ getDbLabel db2 = "Potential Damage!"
    ∧ getDbLabelMain db1 = "Whisper Quiet"
    ∧ getDbLabelMain db3 = "Vacuum / Traffic"
    ∧ getDbLabelMain db2 = "Potential Hearing Damage!"
    ∧ (dfire cfg s).events.head?
        = some ⟨t, s.eventPeak, getDbLabel s.eventPeak⟩ := by
  refine ⟨?_, ?_, by decide, ?_, ?_, ?_, ?_, ?_⟩
  · unfold getDbLabel
    rw [if_pos h1]
  · unfold getDbLabel
    repeat rw [if_neg (by omega)]
    rw [if_pos (by omega)]
  · unfold getDbLabel
    repeat rw [if_neg (by omega)]
  · unfold getDbLabelMain
    rw [if_pos h1]
  · unfold getDbLabelMain
    repeat rw [if_neg (by omega)]
    rw [if_pos (by omega)]
  · unfold getDbLabelMain
    repeat rw [if_neg (by omega)]
  · have hev : (dfire cfg s).events
        = (⟨t, s.eventPeak, getDbLabel s.eventPeak⟩ :: s.events).take 50 := by
      simp [dfire, hp]
    rw [hev, show (50:ℕ) = 49 + 1 from rfl, List.take_succ_cons,
      List.head?_cons]

/-- C9 witness: the amended label facts evaluated at `0`, `85`, `100` and
a state with one pending emission. -/
theorem db_label_bands_witness :
    getDbLabel 0 = "Whisper Quiet"
    ∧ getDbLabel 85 = "Vacuum / Traffic"
    ∧ getDbLabel 90 = "Sound System"
    ∧ getDbLabel 100 = "Potential Damage!"
    ∧ getDbLabelMain 0 = "Whisper Quiet"
    ∧ getDbLabelMain 85 = "Vacuum / Traffic"
    ∧ getDbLabelMain 100 = "Potential Hearing Damage!"
    ∧ (dfire ⟨80, 2⟩ { detInit with pending := [5] }).events.head?
        = some ⟨5, ({ detInit with pending := [5] } : DetState).eventPeak,
            getDbLabel ({ detInit with pending := [5] } : DetState).eventPeak⟩ :=
  db_label_bands 0 100 85 ⟨80, 2⟩ { detInit with pending := [5] } 5 []
    (by decide) (by decide) (by decide) (by decide) rfl

/-- C2: in every reachable state, the logged notifications (and the
logged sound events) are pairwise more than 7000 ms apart — the
cooldown measured from the previous notification makes a second
qualifying episode within the window emit nothing. -/
theorem cooldown_separation (cfg : Cfg) (l : List Step) :
    ((run cfg detInit l).notifs.Pairwise fun a b => b.time + 7000 < a.time)
    ∧ (run cfg detInit l).events.Pairwise fun a b => b.time + 7000 < a.time :=
  ⟨(detInv_run cfg l).notifSep, (detInv_run cfg l).evSep⟩

/-- C8: the live history buffer never exceeds 100 entries, the session
buffer never exceeds 480 entries and is a suffix of its inputs (oldest
dropped first), and the event log never exceeds 50 entries and is always
ordered newest-first. -/
theorem bounded_buffers :
    (∀ dbs : List ℕ, (dbs.foldl historyStep historyInit).length ≤ 100)
    ∧ (∀ peaks : List ℕ, (peaks.foldl sessionStep []).length ≤ 480
        ∧ (peaks.foldl sessionStep []) <:+ peaks)
    ∧ ∀ (cfg : Cfg) (l : List Step),
        (run cfg detInit l).events.length ≤ 50
        ∧ (run cfg detInit l).events.Pairwise fun a b => b.time < a.time := by
  refine ⟨?_, ?_, ?_⟩
  · intro dbs
    exact history_length_le dbs historyInit (by simp [historyInit])
  · intro peaks
    refine ⟨session_length_le peaks [] (by simp), ?_⟩
    simpa using session_suffix peaks []
  · intro cfg l
    exact ⟨(detInv_run cfg l).evLen,
      (detInv_run cfg l).evSep.imp fun h => by omega⟩

/-- C7 counterexample: after one above-threshold tick followed by one
below-threshold tick, the detector is Idle (no sustain timer, no
episode, nothing pending) yet `eventPeak` still holds the residual
value 90. -/
theorem eventPeak_residual_cx :
    (run ⟨80, 2⟩ detInit [Step.tick 100000 90, Step.tick 100100 0]).loudStart
        = none
    ∧ (run ⟨80, 2⟩ detInit
        [Step.tick 100000 90, Step.tick 100100 0]).isEventOccurring = false
    ∧ (run ⟨80, 2⟩ detInit [Step.tick 100000 90, Step.tick 100100 0]).pending
        = []
    ∧ (run ⟨80, 2⟩ detInit [Step.tick 100000 90, Step.tick 100100 0]).eventPeak
        = 90 := by
  norm_num [run, dstep, dtick, detInit]

/-- C7 (amended): `eventPeak` is reset to 0 exactly when an event is
emitted (and the episode flag is cleared there), but a cancelled
non-qualifying episode does not clear it: a below-threshold tick leaves
`eventPeak` unchanged, so an Idle detector can retain a residual peak. -/
theorem eventPeak_reset (cfg : Cfg) (s s2 : DetState) (now : ℤ) (db : ℕ)
    (t : ℤ) (r : List ℤ) (hp : s.pending = t :: r)
    (hlow : db ≤ cfg.threshold) :
    (dfire cfg s).eventPeak = 0
    ∧ (dfire cfg s).isEventOccurring = false
    ∧ (dtick cfg s2 now db).eventPeak = s2.eventPeak := by
  refine ⟨?_, ?_, ?_⟩
  · simp [dfire, hp]
  · simp [dfire, hp]
  · unfold dtick
    rw [if_neg (by omega)]

/-- C7 witness: the amended reset facts evaluated at a state with one
pending emission and a below-threshold tick. -/
theorem eventPeak_reset_witness :
    (dfire ⟨80, 2⟩ { detInit with pending := [5], eventPeak := 90 }).eventPeak
        = 0
    ∧ (dfire ⟨80, 2⟩
        { detInit with pending := [5], eventPeak := 90 }).isEventOccurring
        = false
    ∧ (dtick ⟨80, 2⟩ detInit 0 0).eventPeak = detInit.eventPeak :=
  eventPeak_reset ⟨80, 2⟩ { detInit with pending := [5], eventPeak := 90 }
    detInit 0 0 5 [] rfl (by decide)

/-- C10: a below-threshold tick preserves both the scheduled emission and
the episode flag (it clears only the sustain timer and alerting); firing
a pending emission produces exactly one notification and front-logs
exactly one event; and every reachable state has at most one pending
emission. -/
theorem single_pending_emission (cfg : Cfg) (s : DetState) (now : ℤ) (db : ℕ)
    (t : ℤ) (r : List ℤ) (hlow : db ≤ cfg.threshold)
    (hp : s.pending = t :: r) :
    (dtick cfg s now db).pending = s.pending
    ∧ (dtick cfg s now db).isEventOccurring = s.isEventOccurring
    ∧ (dfire cfg s).notifs.length = s.notifs.length + 1
    ∧ (dfire cfg s).events.head?
        = some ⟨t, s.eventPeak, getDbLabel s.eventPeak⟩
    ∧ (dfire cfg s).pending = r
    ∧ ∀ l : List Step, (run cfg detInit l).pending.length ≤ 1 := by
  refine ⟨?_, ?_, ?_, ?_, ?_, fun l => (detInv_run cfg l).pendLen⟩
  · unfold dtick
    rw [if_neg (by omega)]
  · unfold dtick
    rw [if_neg (by omega)]
  · simp [dfire, hp]
  · have hev : (dfire cfg s).events
        = (⟨t, s.eventPeak, getDbLabel s.eventPeak⟩ :: s.events).take 50 := by
      simp [dfire, hp]
    rw [hev, show (50:ℕ) = 49 + 1 from rfl, List.take_succ_cons,
      List.head?_cons]
  · simp [dfire, hp]

/-- C10 witness: the emission facts evaluated at a state with one pending
emission and a below-threshold tick. -/
theorem single_pending_emission_witness :
    (dtick ⟨80, 2⟩ { detInit with pending := [5] } 0 0).pending
        = ({ detInit with pending := [5] } : DetState).pending
    ∧ (dtick ⟨80, 2⟩ { detInit with pending := [5] } 0 0).isEventOccurring
        = ({ detInit with pending := [5] } : DetState).isEventOccurring
    ∧ (dfire ⟨80, 2⟩ { detInit with pending := [5] }).notifs.length
        = ({ detInit with pending := [5] } : DetState).notifs.length + 1
    ∧ (dfire ⟨80, 2⟩ { detInit with pending := [5] }).events.head?
        = some ⟨5, ({ detInit with pending := [5] } : DetState).eventPeak,
            getDbLabel ({ detInit with pending := [5] } : DetState).eventPeak⟩
    ∧ (dfire ⟨80, 2⟩ { detInit with pending := [5] }).pending = []
    ∧ ∀ l : List Step, (run ⟨80, 2⟩ detInit l).pending.length ≤ 1 :=
  single_pending_emission ⟨80, 2⟩ { detInit with pending := [5] } 0 0 5 []
    (by decide) rfl

/-- C3: when qualification occurs (above threshold, not mid-episode,
contiguous duration at least `durLimit`, cooldown elapsed) the tick
schedules an emission 1000 ms later and keeps folding the reading into
the peak; when the scheduled emission fires it reads `eventPeak` at that
moment, emits title "Sustained Noise Detected!" with body
"Level reached {peak} dB for {durLimit}+ sec.", front-inserts the event
(labelled with its dB band) truncating the log at 50, sets `lastNotify`
to the fire time and resets the episode flag and the peak. -/
theorem emission_capture (cfg : Cfg) (s s2 : DetState) (now : ℤ) (db : ℕ)
    (t : ℤ) (r : List ℤ)
    (habove : cfg.threshold < db)
    (hmid : s.isEventOccurring = false)
    (hdur : cfg.durLimit ≤ ((now - s.loudStart.getD now : ℤ) : ℚ) / 1000)
    (hcool : 7000 < now - s.lastNotify)
    (hp : s2.pending = t :: r) :
    (dtick cfg s now db).pending = s.pending ++ [now + 1000]
    ∧ (dtick cfg s now db).eventPeak = max s.eventPeak db
    ∧ (dfire cfg s2).notifs
        = ⟨t, "Sustained Noise Detected!",
            mkBody s2.eventPeak cfg.durLimit⟩ :: s2.notifs
    ∧ (dfire cfg s2).events
        = (⟨t, s2.eventPeak, getDbLabel s2.eventPeak⟩ :: s2.events).take 50
    ∧ (dfire cfg s2).lastNotify = t
    ∧ (dfire cfg s2).isEventOccurring = false
    ∧ (dfire cfg s2).eventPeak = 0 := by
  have hg : s.isEventOccurring = false
      ∧ cfg.durLimit ≤ ((now - s.loudStart.getD now : ℤ) : ℚ) / 1000
      ∧ 7000 < now - s.lastNotify := ⟨hmid, hdur, hcool⟩
  refine ⟨?_, ?_, ?_, ?_, ?_, ?_, ?_⟩
  · unfold dtick
    rw [if_pos habove, if_pos hg]
  · unfold dtick
    rw [if_pos habove, if_pos hg]
  · simp [dfire, hp]
  · simp [dfire, hp]
  · simp [dfire, hp]
  · simp [dfire, hp]
  · simp [dfire, hp]

/-- C3 witness: qualification at time 102000 after a sustain timer
started at 100000, and a fire over a pending emission at 103000 with
captured peak 85. -/
theorem emission_capture_witness :
    (dtick ⟨80, 2⟩ { detInit with loudStart := some 100000 } 102000 85).pending
        = ({ detInit with loudStart := some 100000 } : DetState).pending
            ++ [102000 + 1000]
    ∧ (dtick ⟨80, 2⟩
        { detInit with loudStart := some 100000 } 102000 85).eventPeak
        = max ({ detInit with loudStart := some 100000 } : DetState).eventPeak
            85
    ∧ (dfire ⟨80, 2⟩
        { detInit with pending := [103000], eventPeak := 85 }).notifs
        = ⟨103000, "Sustained Noise Detected!", mkBody 85 2⟩
            :: ({ detInit with pending := [103000], eventPeak := 85 }
                  : DetState).notifs
    ∧ (dfire ⟨80, 2⟩
        { detInit with pending := [103000], eventPeak := 85 }).events
        = (⟨103000, 85, getDbLabel 85⟩
            :: ({ detInit with pending := [103000], eventPeak := 85 }
                  : DetState).events).take 50
    ∧ (dfire ⟨80, 2⟩
        { detInit with pending := [103000], eventPeak := 85 }).lastNotify
        = 103000
    ∧ (dfire ⟨80, 2⟩
        { detInit with pending := [103000], eventPeak := 85 }).isEventOccurring
        = false
    ∧ (dfire ⟨80, 2⟩
        { detInit with pending := [103000], eventPeak := 85 }).eventPeak
        = 0 :=
  emission_capture ⟨80, 2⟩ { detInit with loudStart := some 100000 }
    { detInit with pending := [103000], eventPeak := 85 } 102000 85 103000 []
    (by decide) rfl (by norm_num [detInit]) (by decide) rfl

/-- C1: a tick at or below the threshold clears the sustain timer and
alerting; and whenever a tick qualifies (observable as the pending list
growing), the pre-tick state carried a sustain start `t` with
`now - t ≥ 1000 * durLimit` milliseconds, and every tick of the trace at
or after time `t` was strictly above the threshold — only a contiguous
above-threshold interval of at least the duration threshold qualifies. -/
theorem sustain_contiguity (cfg : Cfg) (l : List Step) (now : ℤ) (db : ℕ)
    (hdur : 0 < cfg.durLimit)
    (hwf : (tickTimes (l ++ [Step.tick now db])).Pairwise (· < ·))
    (hq : (run cfg detInit (l ++ [Step.tick now db])).pending.length
        = (run cfg detInit l).pending.length + 1) :
    (∀ (s : DetState) (m : ℤ) (d : ℕ), d ≤ cfg.threshold →
      (dtick cfg s m d).loudStart = none ∧ (dtick cfg s m d).alerting = false)
    ∧ ∃ t : ℤ, (run cfg detInit l).loudStart = some t
        ∧ 1000 * cfg.durLimit ≤ ((now - t : ℤ) : ℚ)
        ∧ ∀ p ∈ ticksOf (l ++ [Step.tick now db]),
            t ≤ p.1 → cfg.threshold < p.2 := by
  have hrun : run cfg detInit (l ++ [Step.tick now db])
      = dtick cfg (run cfg detInit l) now db := by
    simp [run, List.foldl_append, dstep]
  constructor
  · intro s m d hd
    unfold dtick
    rw [if_neg (by omega)]
    exact ⟨rfl, rfl⟩
  · rw [hrun] at hq
    by_cases hab : cfg.threshold < db
    · by_cases hg : (run cfg detInit l).isEventOccurring = false
          ∧ cfg.durLimit
              ≤ ((now - (run cfg detInit l).loudStart.getD now : ℤ) : ℚ) / 1000
          ∧ 7000 < now - (run cfg detInit l).lastNotify
      · obtain ⟨h1, h2, h3⟩ := hg
        rcases hls : (run cfg detInit l).loudStart with _ | t0
        · exfalso
          rw [hls] at h2
          simp at h2
          linarith
        · refine ⟨t0, rfl, ?_, ?_⟩
          · rw [hls] at h2
            simp only [Option.getD_some] at h2
            rw [le_div_iff₀ (by norm_num : (0:ℚ) < 1000)] at h2
            linarith
          · have hwf' : (tickTimes l).Pairwise (· < ·) := by
              rw [tickTimes_append] at hwf
              exact (List.pairwise_append.mp hwf).1
            obtain ⟨hex, hall⟩ := loudStart_spec cfg l hwf' t0 hls
            intro p hp hle
            rw [ticksOf_append] at hp
            rcases List.mem_append.mp hp with h' | h'
            · exact hall p h' hle
            · simp [ticksOf] at h'
              rw [Prod.ext_iff] at h'
              rw [h'.2]
              exact hab
      · exfalso
        unfold dtick at hq
        rw [if_pos hab, if_neg hg] at hq
        dsimp only at hq
        omega
    · exfalso
      unfold dtick at hq
      rw [if_neg hab] at hq
      dsimp only at hq
      omega

/-- C1 witness: with threshold 80 and duration 2 s, three above-threshold
ticks at 100000, 101500 and 102000 ms qualify at the third, whose
sustain start 100000 is 2000 ms back and whose trace is contiguously
above threshold. -/
theorem sustain_contiguity_witness :
    (∀ (s : DetState) (m : ℤ) (d : ℕ), d ≤ (⟨80, 2⟩ : Cfg).threshold →
      (dtick ⟨80, 2⟩ s m d).loudStart = none
      ∧ (dtick ⟨80, 2⟩ s m d).alerting = false)
    ∧ ∃ t : ℤ,
        (run ⟨80, 2⟩ detInit
          [Step.tick 100000 85, Step.tick 101500 85]).loudStart = some t
        ∧ 1000 * (⟨80, 2⟩ : Cfg).durLimit ≤ ((102000 - t : ℤ) : ℚ)
        ∧ ∀ p ∈ ticksOf ([Step.tick 100000 85, Step.tick 101500 85]
            ++ [Step.tick 102000 85]),
            t ≤ p.1 → (⟨80, 2⟩ : Cfg).threshold < p.2 :=
  sustain_contiguity ⟨80, 2⟩ [Step.tick 100000 85, Step.tick 101500 85]
    102000 85 (by norm_num) (by decide)
    (by norm_num [run, dstep, dtick, detInit])

end DbMeter
